import Mathlib

/-!
# Verification of the habit tracker's calendar-period streak engine

Shallow embedding of the streak/due-date core of the habit tracker
(`src/data_model/habit.py`, `src/data_model/completion.py`,
`src/analytics/analytics_service.py`).

Timestamps are modelled at day granularity as proleptic Gregorian ordinals
(CPython's `date.toordinal()`, day 1 = 0001-01-01, a Monday): every code path
relevant to the verified claims reads a completion timestamp only through
`.date()`, `.isocalendar()`, whole-day subtraction, or order comparison, and
all of those factor through the calendar day.  Python `int` arithmetic is
modelled by `Int`, whose `/` and `%` are Euclidean (`Int.ediv`/`Int.emod`)
and so agree with Python's floor division and modulo for the positive
divisors used here.
-/

namespace HabitTracker

/-! ## Calendar arithmetic (CPython `datetime` helpers) -/

/-- CPython `_days_before_year`: number of days before January 1 of `year`. -/
def days_before_year (year : Int) : Int :=
  let y := year - 1
  y * 365 + y / 4 - y / 100 + y / 400

/-- Ordinal of January 1 of `year`, i.e. CPython `_ymd2ord(year, 1, 1)`. -/
def jan1_ordinal (year : Int) : Int :=
  days_before_year year + 1

/-- The year component of CPython `_ord2ymd(n)` (month and day are never used
by the embedded program, so only the year computation is carried over). -/
def ord_to_year (ordinal : Int) : Int :=
  let n := ordinal - 1
  let n400 := n / 146097
  let r400 := n % 146097
  let n100 := r400 / 36524
  let r100 := r400 % 36524
  let n4 := r100 / 1461
  let r4 := r100 % 1461
  let n1 := r4 / 365
  let year := n400 * 400 + 1 + n100 * 100 + n4 * 4 + n1
  if n1 = 4 ∨ n100 = 4 then year - 1 else year

/-- CPython `_isoweek1monday(year)`: ordinal of the Monday starting ISO week 1
of `year`.  `3` is `THURSDAY`. -/
def isoweek1monday (year : Int) : Int :=
  let firstday := jan1_ordinal year
  let firstweekday := (firstday + 6) % 7
  let week1monday := firstday - firstweekday
  if firstweekday > 3 then week1monday + 7 else week1monday

/-- CPython `date.isocalendar()` restricted to the (ISO year, ISO week) pair;
the weekday component of the triple is discarded by every caller in the
program (`_, _, _ = d.isocalendar()` patterns keep year and week only). -/
def isocalendar (ordinal : Int) : Int × Int :=
  let year := ord_to_year ordinal
  let week1monday := isoweek1monday year
  let week := (ordinal - week1monday) / 7
  if week < 0 then
    let year' := year - 1
    let week1monday' := isoweek1monday year'
    let week' := (ordinal - week1monday') / 7
    (year', week' + 1)
  else if week ≥ 52 then
    if ordinal ≥ isoweek1monday (year + 1) then (year + 1, 1)
    else (year, week + 1)
  else (year, week + 1)

/-! ## Data model (`completion.py`, `habit.py`, `db.py`) -/

/-- `Periodicity` from `src/storage/db.py`.  The Python enum has exactly the
members `DAILY = "daily"` and `WEEKLY = "weekly"`; `INVALID tag` stands for an
arbitrary foreign value stored in the dynamically typed `periodicity`
attribute, which the enum type cannot rule out in Python. -/
inductive Periodicity where
  | DAILY
  | WEEKLY
  | INVALID (tag : String)
deriving DecidableEq, Repr

/-- The `.value` attribute of a periodicity (the enum member's string). -/
def Periodicity.value : Periodicity → String
  | .DAILY => "daily"
  | .WEEKLY => "weekly"
  | .INVALID tag => tag

/-- `Completion` from `src/data_model/completion.py`: timestamp (as a day
ordinal), optional notes, optional mood score.  Equality is structural,
matching `Completion.__eq__`. -/
structure Completion where
  timestamp : Int
  notes : Option String := none
  mood_score : Option Int := none
deriving DecidableEq, Repr

/-- The fields of `BaseHabit` (and its two subclasses, which add no fields):
`habit_id`, `name`, `periodicity`, `created_date`, `is_active`,
`_completion_records`. -/
structure Habit where
  habit_id : Int
  name : String
  periodicity : Periodicity
  created_date : Int
  is_active : Bool
  completion_records : List Completion
deriving DecidableEq, Repr

/-- `BaseHabit.get_completion_records`: returns `self._completion_records.copy()`;
a copy of an immutable-element list is value-equal to the list itself. -/
def Habit.get_completion_records (h : Habit) : List Completion :=
  h.completion_records

/-- `DailyHabit.is_due_on`: not due when inactive; otherwise due unless some
completion's calendar date equals the target date. -/
def DailyHabit.is_due_on (h : Habit) (target_date : Int) : Bool :=
  if ¬ h.is_active then false
  else if h.completion_records.any (fun c => c.timestamp == target_date) then false
  else true

/-- `WeeklyHabit.is_due_on`: not due when inactive; otherwise due unless some
completion's ISO (year, week) equals the target date's ISO (year, week). -/
def WeeklyHabit.is_due_on (h : Habit) (target_date : Int) : Bool :=
  if ¬ h.is_active then false
  else if h.completion_records.any
      (fun c => isocalendar c.timestamp == isocalendar target_date) then false
  else true

/-! ## Sorting helpers

`sorted(completions, key=lambda x: x.timestamp)` and its `reverse=True`
variant are modelled by insertion sort under the corresponding key order
(Python's sort is stable; stability is immaterial here because every
consumer reads completions only through their timestamps). -/

/-- Ascending key order on completions: `a.timestamp <= b.timestamp`. -/
def ts_le (a b : Completion) : Prop := a.timestamp ≤ b.timestamp

/-- Descending key order on completions: `b.timestamp <= a.timestamp`. -/
def ts_ge (a b : Completion) : Prop := b.timestamp ≤ a.timestamp

instance : DecidableRel ts_le := fun a b => by unfold ts_le; infer_instance

instance : DecidableRel ts_ge := fun a b => by unfold ts_ge; infer_instance

instance : IsTotal Completion ts_le := ⟨fun a b => Int.le_total a.timestamp b.timestamp⟩

instance : IsTotal Completion ts_ge := ⟨fun a b => Int.le_total b.timestamp a.timestamp⟩

instance : IsTrans Completion ts_le := ⟨fun _ _ _ hab hbc => le_trans hab hbc⟩

instance : IsTrans Completion ts_ge := ⟨fun _ _ _ hab hbc => le_trans hbc hab⟩

/-- `sorted(completions, key=lambda x: x.timestamp)`. -/
def sort_by_timestamp (l : List Completion) : List Completion :=
  List.insertionSort ts_le l

/-- `sorted(completions, key=lambda x: x.timestamp, reverse=True)`. -/
def sort_by_timestamp_desc (l : List Completion) : List Completion :=
  List.insertionSort ts_ge l

/-- Descending order on plain integers (used to restate sorted timestamp
lists canonically). -/
def int_ge (a b : Int) : Prop := b ≤ a

instance : DecidableRel int_ge := fun a b => by unfold int_ge; infer_instance

instance : IsTotal Int int_ge := ⟨fun a b => Int.le_total b a⟩

instance : IsTrans Int int_ge := ⟨fun _ _ _ hab hbc => le_trans hbc hab⟩

instance : IsAntisymm Int int_ge := ⟨fun _ _ hab hba => le_antisymm hba hab⟩

/-- Canonical ascending sort of an integer list. -/
def sort_int_asc (l : List Int) : List Int :=
  List.insertionSort (· ≤ ·) l

/-- Canonical descending sort of an integer list. -/
def sort_int_desc (l : List Int) : List Int :=
  List.insertionSort int_ge l

/-- Lexicographic order on (ISO year, ISO week) pairs, as Python compares
tuples in `sorted(weeks)`. -/
def lex_le (a b : Int × Int) : Prop :=
  a.1 < b.1 ∨ (a.1 = b.1 ∧ a.2 ≤ b.2)

instance : DecidableRel lex_le := fun a b => by unfold lex_le; infer_instance

instance : IsTotal (Int × Int) lex_le := by
  constructor
  intro a b
  unfold lex_le
  rcases lt_trichotomy a.1 b.1 with h | h | h
  · exact Or.inl (Or.inl h)
  · rcases Int.le_total a.2 b.2 with h2 | h2
    · exact Or.inl (Or.inr ⟨h, h2⟩)
    · exact Or.inr (Or.inr ⟨h.symm, h2⟩)
  · exact Or.inr (Or.inl h)

instance : IsTrans (Int × Int) lex_le := by
  constructor
  intro a b c hab hbc
  unfold lex_le at *
  rcases hab with h1 | ⟨h1, h1'⟩ <;> rcases hbc with h2 | ⟨h2, h2'⟩
  · exact Or.inl (lt_trans h1 h2)
  · exact Or.inl (h2 ▸ h1)
  · exact Or.inl (h1 ▸ h2)
  · exact Or.inr ⟨h1.trans h2, le_trans h1' h2'⟩

instance : IsAntisymm (Int × Int) lex_le := by
  constructor
  intro a b hab hba
  unfold lex_le at *
  rcases hab with h1 | ⟨h1, h1'⟩ <;> rcases hba with h2 | ⟨h2, h2'⟩
  · exact absurd h2 (lt_asymm h1)
  · exact absurd h1 (by rw [h2]; exact lt_irrefl _)
  · exact absurd h2 (by rw [h1]; exact lt_irrefl _)
  · exact Prod.ext h1 (le_antisymm h1' h2')

/-- Canonical ascending sort of (year, week) pairs under tuple order. -/
def sort_pairs (l : List (Int × Int)) : List (Int × Int) :=
  List.insertionSort lex_le l

/-! ## `AnalyticsService` (`analytics_service.py`) -/

/-- The daily branch of `calculate_current_streak` (lines 41-49): iterate the
descending-sorted completions; a completion dated on or before the cursor is
counted and moves the cursor to the day before that completion; the first
completion dated after the cursor stops the loop (`break`). -/
def daily_streak_loop : List Completion → Int → Nat
  | [], _ => 0
  | completion :: rest, current_date =>
    if completion.timestamp ≤ current_date then
      1 + daily_streak_loop rest (completion.timestamp - 1)
    else 0

/-- The weekly branch of `calculate_current_streak` (lines 55-68): iterate the
descending-sorted completions; a completion whose ISO (year, week) is the
cursor week, the week before the cursor in the same year, or week 52 of the
previous year while the cursor is week 1, is counted, after which the cursor
week is decremented, rolling `week 0` back to `(year - 1, 52)`. -/
def weekly_streak_loop : List Completion → Int → Int → Nat
  | [], _, _ => 0
  | completion :: rest, current_year, current_week =>
    let cyw := isocalendar completion.timestamp
    if (cyw.1 = current_year ∧ cyw.2 = current_week) ∨
        (cyw.1 = current_year ∧ cyw.2 = current_week - 1) ∨
        (cyw.1 = current_year - 1 ∧ cyw.2 = 52 ∧ current_week = 1) then
      if current_week - 1 = 0 then
        1 + weekly_streak_loop rest (current_year - 1) 52
      else
        1 + weekly_streak_loop rest current_year (current_week - 1)
    else 0

/-- `AnalyticsService.calculate_current_streak`.  The Python default
`as_of_date = None` resolves to the caller's clock; the reference date is the
explicit parameter here, exactly as when the caller supplies one. -/
def calculate_current_streak (habit : Habit) (as_of_date : Int) : Nat :=
  if habit.get_completion_records.isEmpty then 0
  else
    let completions := sort_by_timestamp_desc habit.get_completion_records
    if habit.periodicity = Periodicity.DAILY then
      daily_streak_loop completions as_of_date
    else
      let yw := isocalendar as_of_date
      weekly_streak_loop completions yw.1 yw.2

/-- The scan of `_calculate_daily_longest_streak` (lines 106-112) over the
ascending-sorted date list, carrying the previous date, the current run and
the longest run: a gap of exactly one day extends the run, a different date
otherwise resets it to 1, an equal date leaves both counters unchanged. -/
def daily_longest_scan : Int → Nat → Nat → List Int → Nat
  | _, _, longest, [] => longest
  | prev, current, longest, d :: rest =>
    if d - prev = 1 then
      daily_longest_scan d (current + 1) (max longest (current + 1)) rest
    else if d ≠ prev then
      daily_longest_scan d 1 longest rest
    else
      daily_longest_scan d current longest rest

/-- `AnalyticsService._calculate_daily_longest_streak`. -/
def calculate_daily_longest_streak (completions : List Completion) : Nat :=
  if completions.isEmpty then 0
  else
    let dates := sort_int_asc (completions.map (·.timestamp))
    match dates with
    | [] => 0
    | d :: rest => daily_longest_scan d 1 1 rest

/-- The scan of `_calculate_weekly_longest_streak` (lines 132-142) over the
sorted distinct (year, week) pairs: consecutive means same year and week + 1,
or year + 1 with week 1 after week 52. -/
def weekly_longest_scan : Int × Int → Nat → Nat → List (Int × Int) → Nat
  | _, _, longest, [] => longest
  | prev, current, longest, w :: rest =>
    if (w.1 = prev.1 ∧ w.2 = prev.2 + 1) ∨
        (w.1 = prev.1 + 1 ∧ w.2 = 1 ∧ prev.2 = 52) then
      weekly_longest_scan w (current + 1) (max longest (current + 1)) rest
    else
      weekly_longest_scan w 1 longest rest

/-- `AnalyticsService._calculate_weekly_longest_streak`.  Python builds
`sorted(set of (year, week))`; the strictly sorted enumeration of the distinct
pairs is `sort_pairs` of the deduplicated list. -/
def calculate_weekly_longest_streak (completions : List Completion) : Nat :=
  if completions.isEmpty then 0
  else
    let weeks := sort_pairs ((completions.map (fun c => isocalendar c.timestamp)).dedup)
    match weeks with
    | [] => 0
    | w :: rest => weekly_longest_scan w 1 1 rest

/-- `AnalyticsService.calculate_longest_streak`: sort ascending, return 0 on
no completions, otherwise dispatch on `habit.periodicity == Periodicity.DAILY`
with the weekly helper on the `else` branch. -/
def calculate_longest_streak (habit : Habit) : Nat :=
  let completions := sort_by_timestamp habit.get_completion_records
  if completions.isEmpty then 0
  else if habit.periodicity = Periodicity.DAILY then
    calculate_daily_longest_streak completions
  else
    calculate_weekly_longest_streak completions

/-- One element of the `streak_data` list in `get_overall_longest_streak`. -/
structure StreakEntry where
  habit : Habit
  streak_length : Nat

/-- Python `max(streak_data, key=lambda x: x["streak_length"])`: scan left to
right, replacing the best element only on a strictly greater key, so the
first of several maximal elements wins. -/
def max_by_streak : StreakEntry → List StreakEntry → StreakEntry
  | best, [] => best
  | best, e :: rest =>
    max_by_streak (if e.streak_length > best.streak_length then e else best) rest

/-- The dictionary returned by `get_overall_longest_streak`; in the empty
case Python returns a dictionary without the `habit_id` key, modelled as
`none`. -/
structure OverallStreakResult where
  habit_name : Option String
  streak_length : Nat
  periodicity : Option String
  habit_id : Option Int
deriving DecidableEq, Repr

/-- `AnalyticsService.get_overall_longest_streak`. -/
def get_overall_longest_streak (habits : List Habit) : OverallStreakResult :=
  let streak_data := habits.map (fun hb => StreakEntry.mk hb (calculate_longest_streak hb))
  match streak_data with
  | [] => ⟨none, 0, none, none⟩
  | e :: rest =>
    let best := max_by_streak e rest
    ⟨some best.habit.name, best.streak_length,
      some best.habit.periodicity.value, some best.habit.habit_id⟩

/-- State-passing embedding of `calculate_current_streak`: the habit's state
is threaded through and returned next to the result, so an in-place update of
a habit field or of the stored list would show up as a changed habit.  The
function reads the records only through `get_completion_records` (a copy) and
`sorted` (a fresh list), and never assigns a habit attribute. -/
def calculate_current_streak_effect (habit : Habit) (as_of_date : Int) : Nat × Habit :=
  let records := habit.get_completion_records
  if records.isEmpty then (0, habit)
  else
    let completions := sort_by_timestamp_desc records
    if habit.periodicity = Periodicity.DAILY then
      (daily_streak_loop completions as_of_date, habit)
    else
      let yw := isocalendar as_of_date
      (weekly_streak_loop completions yw.1 yw.2, habit)

/-- State-passing embedding of `calculate_longest_streak`, as above. -/
def calculate_longest_streak_effect (habit : Habit) : Nat × Habit :=
  let completions := sort_by_timestamp habit.get_completion_records
  if completions.isEmpty then (0, habit)
  else if habit.periodicity = Periodicity.DAILY then
    (calculate_daily_longest_streak completions, habit)
  else
    (calculate_weekly_longest_streak completions, habit)

/-! ## Timestamp-level views of the streak loops

Both current-streak loops read a completion only through its timestamp, so
they factor through the list of timestamps; the factored forms below feed the
permutation-invariance and bound proofs. -/

/-- `daily_streak_loop` on the bare timestamp list. -/
def daily_ts_loop : List Int → Int → Nat
  | [], _ => 0
  | d :: rest, current_date =>
    if d ≤ current_date then 1 + daily_ts_loop rest (d - 1) else 0

/-- `weekly_streak_loop` on the bare timestamp list. -/
def weekly_ts_loop : List Int → Int → Int → Nat
  | [], _, _ => 0
  | t :: rest, current_year, current_week =>
    let cyw := isocalendar t
    if (cyw.1 = current_year ∧ cyw.2 = current_week) ∨
        (cyw.1 = current_year ∧ cyw.2 = current_week - 1) ∨
        (cyw.1 = current_year - 1 ∧ cyw.2 = 52 ∧ current_week = 1) then
      if current_week - 1 = 0 then 1 + weekly_ts_loop rest (current_year - 1) 52
      else 1 + weekly_ts_loop rest current_year (current_week - 1)
    else 0

theorem daily_streak_loop_eq_ts (l : List Completion) (c : Int) :
    daily_streak_loop l c = daily_ts_loop (l.map (·.timestamp)) c := by
  induction l generalizing c with
  | nil => rfl
  | cons x rest ih =>
    simp only [daily_streak_loop, daily_ts_loop, List.map_cons]
    by_cases hx : x.timestamp ≤ c <;> simp [hx, ih]

theorem weekly_streak_loop_eq_ts (l : List Completion) (cy cw : Int) :
    weekly_streak_loop l cy cw = weekly_ts_loop (l.map (·.timestamp)) cy cw := by
  induction l generalizing cy cw with
  | nil => rfl
  | cons x rest ih =>
    simp only [weekly_streak_loop, weekly_ts_loop, List.map_cons]
    split
    · split <;> simp [ih]
    · rfl

/-! ## Canonical-sort lemmas -/

theorem sort_int_asc_sorted (l : List Int) : List.Sorted (· ≤ ·) (sort_int_asc l) :=
  List.sorted_insertionSort _ l

theorem sort_int_asc_perm (l : List Int) : (sort_int_asc l).Perm l :=
  List.perm_insertionSort _ l

theorem sort_int_asc_congr {l1 l2 : List Int} (h : l1.Perm l2) :
    sort_int_asc l1 = sort_int_asc l2 :=
  List.eq_of_perm_of_sorted
    ((sort_int_asc_perm l1).trans (h.trans (sort_int_asc_perm l2).symm))
    (sort_int_asc_sorted l1) (sort_int_asc_sorted l2)

theorem sort_int_desc_sorted (l : List Int) : List.Sorted int_ge (sort_int_desc l) :=
  List.sorted_insertionSort _ l

theorem sort_int_desc_perm (l : List Int) : (sort_int_desc l).Perm l :=
  List.perm_insertionSort _ l

theorem sort_int_desc_congr {l1 l2 : List Int} (h : l1.Perm l2) :
    sort_int_desc l1 = sort_int_desc l2 :=
  List.eq_of_perm_of_sorted
    ((sort_int_desc_perm l1).trans (h.trans (sort_int_desc_perm l2).symm))
    (sort_int_desc_sorted l1) (sort_int_desc_sorted l2)

theorem sort_pairs_sorted (l : List (Int × Int)) : List.Sorted lex_le (sort_pairs l) :=
  List.sorted_insertionSort _ l

theorem sort_pairs_perm (l : List (Int × Int)) : (sort_pairs l).Perm l :=
  List.perm_insertionSort _ l

theorem sort_pairs_congr {l1 l2 : List (Int × Int)} (h : l1.Perm l2) :
    sort_pairs l1 = sort_pairs l2 :=
  List.eq_of_perm_of_sorted
    ((sort_pairs_perm l1).trans (h.trans (sort_pairs_perm l2).symm))
    (sort_pairs_sorted l1) (sort_pairs_sorted l2)

/-- The timestamps of the ascending-sorted completions are the canonically
sorted timestamps. -/
theorem map_sort_by_timestamp (l : List Completion) :
    (sort_by_timestamp l).map (·.timestamp) = sort_int_asc (l.map (·.timestamp)) := by
  have hsorted : List.Sorted (· ≤ ·) ((sort_by_timestamp l).map (·.timestamp)) :=
    List.pairwise_map.mpr (List.sorted_insertionSort ts_le l)
  exact List.eq_of_perm_of_sorted
    (((List.perm_insertionSort ts_le l).map _).trans (sort_int_asc_perm _).symm)
    hsorted (sort_int_asc_sorted _)

/-- The timestamps of the descending-sorted completions are the canonically
descending-sorted timestamps. -/
theorem map_sort_by_timestamp_desc (l : List Completion) :
    (sort_by_timestamp_desc l).map (·.timestamp) = sort_int_desc (l.map (·.timestamp)) := by
  have hsorted : List.Sorted int_ge ((sort_by_timestamp_desc l).map (·.timestamp)) :=
    List.pairwise_map.mpr (List.sorted_insertionSort ts_ge l)
  exact List.eq_of_perm_of_sorted
    (((List.perm_insertionSort ts_ge l).map _).trans (sort_int_desc_perm _).symm)
    hsorted (sort_int_desc_sorted _)

/-! ## Loop bounds -/

theorem daily_streak_loop_le_length (l : List Completion) (c : Int) :
    daily_streak_loop l c ≤ l.length := by
  induction l generalizing c with
  | nil => exact Nat.le_refl 0
  | cons x rest ih =>
    simp only [daily_streak_loop, List.length_cons]
    split
    · have := ih (x.timestamp - 1); omega
    · exact Nat.zero_le _

theorem weekly_streak_loop_le_length (l : List Completion) (cy cw : Int) :
    weekly_streak_loop l cy cw ≤ l.length := by
  induction l generalizing cy cw with
  | nil => exact Nat.le_refl 0
  | cons x rest ih =>
    simp only [weekly_streak_loop, List.length_cons]
    split
    · split
      · have := ih (cy - 1) 52; omega
      · have := ih cy (cw - 1); omega
    · exact Nat.zero_le _

/-! ## Claim C10 -/

/-- C10: for every habit and every as-of date, `calculate_current_streak`
returns a natural number (hence `0 ≤ n`) that is at most the number of the
habit's completion records, and a habit with zero completions yields 0: the
counter starts at 0 and each loop iteration consumes one completion record
and adds at most 1. -/
theorem c10_current_streak_bounded (h : Habit) (d : Int) :
    calculate_current_streak h d ≤ h.get_completion_records.length ∧
      (h.get_completion_records = [] → calculate_current_streak h d = 0) := by
  constructor
  · unfold calculate_current_streak
    split
    · exact Nat.zero_le _
    · dsimp only
      split
      · calc daily_streak_loop (sort_by_timestamp_desc h.get_completion_records) d
            ≤ (sort_by_timestamp_desc h.get_completion_records).length :=
              daily_streak_loop_le_length _ _
          _ = h.get_completion_records.length := List.length_insertionSort _ _
      · calc weekly_streak_loop (sort_by_timestamp_desc h.get_completion_records)
              (isocalendar d).1 (isocalendar d).2
            ≤ (sort_by_timestamp_desc h.get_completion_records).length :=
              weekly_streak_loop_le_length _ _ _
          _ = h.get_completion_records.length := List.length_insertionSort _ _
  · intro he
    unfold calculate_current_streak
    simp [he]

/-- Concrete habit with no completions, for the C10 witness. -/
def c10_habit : Habit :=
  ⟨7, "stretch", Periodicity.DAILY, 738886, true, []⟩

/-- Witness for C10 at a habit with zero completions. -/
theorem c10_witness :
    calculate_current_streak c10_habit 738905 ≤ c10_habit.get_completion_records.length ∧
      calculate_current_streak c10_habit 738905 = 0 :=
  ⟨(c10_current_streak_bounded c10_habit 738905).1,
    (c10_current_streak_bounded c10_habit 738905).2 rfl⟩

/-! ## Claim C8 -/

/-- C8: neither calculator changes the habit: in the state-passing embedding
the habit that comes back is the habit that went in, so its completion list
(length, elements and order) and its `is_active` flag are unchanged, and the
computed streaks agree with the pure functions. -/
theorem c8_calculators_leave_habit_unchanged (h : Habit) (d : Int) :
    calculate_current_streak_effect h d = (calculate_current_streak h d, h) ∧
      calculate_longest_streak_effect h = (calculate_longest_streak h, h) ∧
      (calculate_current_streak_effect h d).2.completion_records = h.completion_records ∧
      (calculate_current_streak_effect h d).2.is_active = h.is_active ∧
      (calculate_longest_streak_effect h).2.completion_records = h.completion_records ∧
      (calculate_longest_streak_effect h).2.is_active = h.is_active := by
  have h1 : calculate_current_streak_effect h d = (calculate_current_streak h d, h) := by
    unfold calculate_current_streak_effect calculate_current_streak
    dsimp only
    split <;> first | rfl | (split <;> rfl)
  have h2 : calculate_longest_streak_effect h = (calculate_longest_streak h, h) := by
    unfold calculate_longest_streak_effect calculate_longest_streak
    dsimp only
    split <;> first | rfl | (split <;> rfl)
  exact ⟨h1, h2, by rw [h1], by rw [h1], by rw [h2], by rw [h2]⟩

/-! ## Claim C2 -/

/-- C2 (amended): for every daily habit and target date, `is_due_on` returns
`True` iff the habit is active and no completion's calendar date equals the
target date.  (The creation date is not consulted by the code.) -/
theorem c2_daily_is_due_iff (h : Habit) (t : Int) :
    DailyHabit.is_due_on h t = true ↔
      (h.is_active = true ∧ ∀ c ∈ h.completion_records, c.timestamp ≠ t) := by
  by_cases ha : h.is_active <;>
    simp [DailyHabit.is_due_on, ha, List.any_eq_true]

/-- Active daily habit created on 2024-01-20 (ordinal 738905) with no
completions, for the C2 counterexample. -/
def c2_habit : Habit :=
  ⟨1, "meditate", Periodicity.DAILY, 738905, true, []⟩

/-- C2 counterexample: the claim makes `is_due_on` require target date ≥
creation date, but the code returns `True` on 2024-01-05 (ordinal 738890) for
an active completion-free daily habit created on 2024-01-20. -/
theorem c2_counterexample :
    DailyHabit.is_due_on c2_habit 738890 = true ∧
      ¬ ((738890 : Int) ≥ c2_habit.created_date) := by
  exact ⟨rfl, by decide⟩

/-! ## Claim C3 -/

/-- C3 (amended): for every weekly habit and target date, `is_due_on` returns
`True` iff the habit is active and no completion's ISO (year, week) equals
the target date's ISO (year, week).  (The creation date is not consulted by
the code.) -/
theorem c3_weekly_is_due_iff (h : Habit) (t : Int) :
    WeeklyHabit.is_due_on h t = true ↔
      (h.is_active = true ∧
        ∀ c ∈ h.completion_records, isocalendar c.timestamp ≠ isocalendar t) := by
  by_cases ha : h.is_active <;>
    simp [WeeklyHabit.is_due_on, ha, List.any_eq_true]

/-- Active weekly habit created on 2024-01-08 (ISO week 2 of 2024) with no
completions, for the C3 counterexample. -/
def c3_habit : Habit :=
  ⟨2, "weekly review", Periodicity.WEEKLY, 738893, true, []⟩

/-- C3 counterexample: the claim makes `is_due_on` require the target's ISO
(year, week) to be lexicographically ≥ the creation date's, but the code
returns `True` on 2024-01-03 (ISO week 1 of 2024, ordinal 738888) for an
active completion-free weekly habit created in ISO week 2 of 2024. -/
theorem c3_counterexample :
    WeeklyHabit.is_due_on c3_habit 738888 = true ∧
      isocalendar c3_habit.created_date = (2024, 2) ∧
      isocalendar 738888 = (2024, 1) ∧
      ¬ lex_le (isocalendar c3_habit.created_date) (isocalendar 738888) := by
  refine ⟨rfl, by decide, by decide, by decide⟩

/-! ## Claim C4 -/

/-- Habit whose `periodicity` attribute holds a value outside the
`Periodicity` enum, with one completion on 2024-01-20, for C4. -/
def c4_habit : Habit :=
  ⟨3, "budget", Periodicity.INVALID "monthly", 738886, true, [{ timestamp := 738905 }]⟩

/-- C4 counterexample: a periodicity outside {DAILY, WEEKLY} does not make
the calculators fail fast; both silently compute the weekly branch and
return its ordinary numeric result. -/
theorem c4_counterexample :
    c4_habit.periodicity = Periodicity.INVALID "monthly" ∧
      calculate_longest_streak c4_habit = 1 ∧
      calculate_longest_streak c4_habit =
        calculate_weekly_longest_streak (sort_by_timestamp c4_habit.get_completion_records) ∧
      calculate_current_streak c4_habit 738905 = 1 ∧
      calculate_current_streak c4_habit 738905 =
        weekly_streak_loop (sort_by_timestamp_desc c4_habit.get_completion_records)
          (isocalendar 738905).1 (isocalendar 738905).2 := by
  refine ⟨rfl, by decide, by decide, by decide, by decide⟩

/-- C4 (amended): every habit whose periodicity is not DAILY — including any
value outside {DAILY, WEEKLY} — is treated by both calculators exactly as a
WEEKLY habit; no error is raised. -/
theorem c4_nondaily_takes_weekly_branch (h : Habit) (hp : h.periodicity ≠ Periodicity.DAILY) :
    (∀ d, calculate_current_streak h d =
        calculate_current_streak { h with periodicity := Periodicity.WEEKLY } d) ∧
      calculate_longest_streak h =
        calculate_longest_streak { h with periodicity := Periodicity.WEEKLY } := by
  constructor
  · intro d
    unfold calculate_current_streak
    simp [Habit.get_completion_records, hp]
  · unfold calculate_longest_streak
    simp [Habit.get_completion_records, hp]

/-- Witness for C4 (amended) at the invalid-periodicity habit. -/
theorem c4_witness :
    c4_habit.periodicity ≠ Periodicity.DAILY ∧
      ((∀ d, calculate_current_streak c4_habit d =
          calculate_current_streak { c4_habit with periodicity := Periodicity.WEEKLY } d) ∧
        calculate_longest_streak c4_habit =
          calculate_longest_streak { c4_habit with periodicity := Periodicity.WEEKLY }) :=
  ⟨by decide, c4_nondaily_takes_weekly_branch c4_habit (by decide)⟩

/-! ## Claim C1 -/

/-- The backward day-walk exactly as the spec sentence for C1 words it
(formalised from the spec, for comparison with the code): starting at the
cursor, a day with at least one completion extends the streak by exactly 1
and moves the cursor back one day; the walk stops at the first day without a
completion.  The fuel `dates.length + 1` never runs out before the walk
stops on its own, because the walk can count at most `dates.length` distinct
days. -/
def spec_daily_walk : Nat → List Int → Int → Nat
  | 0, _, _ => 0
  | fuel + 1, dates, cursor =>
    if dates.contains cursor then 1 + spec_daily_walk fuel dates (cursor - 1)
    else 0

/-- The current daily streak as the C1 claim describes it. -/
def spec_daily_current_streak (habit : Habit) (as_of_date : Int) : Nat :=
  let dates := habit.completion_records.map (·.timestamp)
  spec_daily_walk (dates.length + 1) dates as_of_date

/-- Daily habit with completions on 2024-01-20 and 2024-01-05, for C1. -/
def c1_habit : Habit :=
  ⟨4, "run", Periodicity.DAILY, 738521, true,
    [{ timestamp := 738905 }, { timestamp := 738890 }]⟩

/-- C1 counterexample: with completions on 2024-01-20 (ordinal 738905) and
2024-01-05 (ordinal 738890) and as-of 2024-01-20, the claimed walk stops at
the gap on 2024-01-19 and yields 1, but the code's condition
`comp_date <= current_date.date()` also counts the completion dated strictly
earlier than the cursor and returns 2. -/
theorem c1_counterexample :
    calculate_current_streak c1_habit 738905 = 2 ∧
      spec_daily_current_streak c1_habit 738905 = 1 := by
  exact ⟨by decide, by decide⟩

/-- `dec_chain cursor l`: the dates of `l`, read left to right, are each on
or before the running cursor, which then moves to the day before the
accepted date. -/
def dec_chain : Int → List Int → Prop
  | _, [] => True
  | cursor, d :: rest => d ≤ cursor ∧ dec_chain (d - 1) rest

instance dec_chain_decidable : ∀ (cursor : Int) (l : List Int), Decidable (dec_chain cursor l)
  | _, [] => .isTrue trivial
  | _, d :: rest =>
    @instDecidableAnd _ _ _ (dec_chain_decidable (d - 1) rest)

/-- The daily loop returns the length of the longest `dec_chain` prefix of
its date list. -/
theorem daily_ts_loop_chain_spec (l : List Int) (cursor : Int) :
    dec_chain cursor (l.take (daily_ts_loop l cursor)) ∧
      ∀ n, n ≤ l.length → dec_chain cursor (l.take n) → n ≤ daily_ts_loop l cursor := by
  induction l generalizing cursor with
  | nil =>
    refine ⟨trivial, fun n hn _ => ?_⟩
    simp only [List.length_nil, Nat.le_zero] at hn
    simp [hn, daily_ts_loop]
  | cons d rest ih =>
    by_cases hd : d ≤ cursor
    · obtain ⟨ih1, ih2⟩ := ih (d - 1)
      have hloop : daily_ts_loop (d :: rest) cursor = daily_ts_loop rest (d - 1) + 1 := by
        simp [daily_ts_loop, hd, Nat.add_comm]
      refine ⟨?_, ?_⟩
      · rw [hloop, List.take_succ_cons]
        exact ⟨hd, ih1⟩
      · intro n hn hchain
        match n with
        | 0 => omega
        | m + 1 =>
          rw [List.take_succ_cons] at hchain
          have hchain' : d ≤ cursor ∧ dec_chain (d - 1) (rest.take m) := hchain
          have := ih2 m (by simpa using hn) hchain'.2
          omega
    · have hloop : daily_ts_loop (d :: rest) cursor = 0 := by simp [daily_ts_loop, hd]
      refine ⟨by rw [hloop]; exact trivial, ?_⟩
      intro n hn hchain
      match n with
      | 0 => omega
      | m + 1 =>
        rw [List.take_succ_cons] at hchain
        have hchain' : d ≤ cursor ∧ dec_chain (d - 1) (rest.take m) := hchain
        exact absurd hchain'.1 hd

/-- C1 (amended): for every daily habit and as-of date, the current streak is
the length of the longest prefix of the descending-sorted completion dates in
which the first date is on or before the as-of date and each later date is on
or before the day before the previously counted date.  Gaps do not stop the
walk — a completion dated strictly earlier than the cursor is still counted,
with the cursor jumping to the day before it — and the walk stops only at a
completion dated after the cursor (e.g. a same-day duplicate). -/
theorem c1_daily_current_streak_chain (h : Habit) (asof : Int)
    (hp : h.periodicity = Periodicity.DAILY) :
    dec_chain asof
        ((sort_int_desc (h.completion_records.map (·.timestamp))).take
          (calculate_current_streak h asof)) ∧
      ∀ n, n ≤ h.completion_records.length →
        dec_chain asof ((sort_int_desc (h.completion_records.map (·.timestamp))).take n) →
        n ≤ calculate_current_streak h asof := by
  have hcalc : calculate_current_streak h asof =
      daily_ts_loop (sort_int_desc (h.completion_records.map (·.timestamp))) asof := by
    unfold calculate_current_streak
    dsimp only
    by_cases he : h.get_completion_records.isEmpty
    · rw [if_pos he]
      have hnil : h.completion_records = [] := by
        simpa [Habit.get_completion_records, List.isEmpty_iff] using he
      simp [hnil, sort_int_desc, List.insertionSort, daily_ts_loop]
    · rw [if_neg he, if_pos hp, daily_streak_loop_eq_ts, map_sort_by_timestamp_desc]
      rfl
  rw [hcalc]
  have hlen : (sort_int_desc (h.completion_records.map (·.timestamp))).length
      = h.completion_records.length := by
    rw [(sort_int_desc_perm _).length_eq, List.length_map]
  obtain ⟨h1, h2⟩ :=
    daily_ts_loop_chain_spec (sort_int_desc (h.completion_records.map (·.timestamp))) asof
  exact ⟨h1, fun n hn hc => h2 n (by omega) hc⟩

/-- Witness for C1 (amended) at the two-completion habit. -/
theorem c1_witness :
    c1_habit.periodicity = Periodicity.DAILY ∧
      (dec_chain 738905
          ((sort_int_desc (c1_habit.completion_records.map (·.timestamp))).take
            (calculate_current_streak c1_habit 738905)) ∧
        ∀ n, n ≤ c1_habit.completion_records.length →
          dec_chain 738905
            ((sort_int_desc (c1_habit.completion_records.map (·.timestamp))).take n) →
          n ≤ calculate_current_streak c1_habit 738905) :=
  ⟨rfl, c1_daily_current_streak_chain c1_habit 738905 rfl⟩

/-! ## Bridge lemmas: both calculators factor through canonically sorted
timestamp data -/

/-- `calculate_current_streak` rewritten over the canonically sorted
timestamp list. -/
theorem calculate_current_streak_eq_ts (h : Habit) (d : Int) :
    calculate_current_streak h d =
      if h.completion_records = [] then 0
      else if h.periodicity = Periodicity.DAILY then
        daily_ts_loop (sort_int_desc (h.completion_records.map (·.timestamp))) d
      else
        weekly_ts_loop (sort_int_desc (h.completion_records.map (·.timestamp)))
          (isocalendar d).1 (isocalendar d).2 := by
  unfold calculate_current_streak
  dsimp only
  by_cases he : h.completion_records = []
  · have : h.get_completion_records.isEmpty = true := by
      simp [Habit.get_completion_records, he]
    rw [if_pos this, if_pos he]
  · have : ¬ h.get_completion_records.isEmpty = true := by
      simp [Habit.get_completion_records, he]
    rw [if_neg this, if_neg he]
    by_cases hp : h.periodicity = Periodicity.DAILY
    · rw [if_pos hp, if_pos hp, daily_streak_loop_eq_ts, map_sort_by_timestamp_desc]
      rfl
    · rw [if_neg hp, if_neg hp, weekly_streak_loop_eq_ts, map_sort_by_timestamp_desc]
      rfl

/-- The sorted distinct (year, week) list that the weekly longest-streak
helper scans, as a function of the raw completion list. -/
def weekly_weeks (l : List Completion) : List (Int × Int) :=
  sort_pairs ((l.map (fun c => isocalendar c.timestamp)).dedup)

theorem weekly_weeks_congr {l1 l2 : List Completion} (h : l1.Perm l2) :
    weekly_weeks l1 = weekly_weeks l2 :=
  sort_pairs_congr (List.Perm.dedup (h.map _))

/-- `calculate_longest_streak` on a daily habit, rewritten over the
canonically sorted timestamp list. -/
theorem calculate_longest_streak_daily_eq (h : Habit)
    (hp : h.periodicity = Periodicity.DAILY) :
    calculate_longest_streak h =
      (match sort_int_asc (h.completion_records.map (·.timestamp)) with
        | [] => 0
        | d :: rest => daily_longest_scan d 1 1 rest) := by
  unfold calculate_longest_streak
  dsimp only
  by_cases he : h.completion_records = []
  · have hse : (sort_by_timestamp h.get_completion_records).isEmpty = true := by
      simp [Habit.get_completion_records, he, sort_by_timestamp, List.insertionSort]
    rw [if_pos hse]
    simp [he, sort_int_asc, List.insertionSort]
  · have hse : ¬ (sort_by_timestamp h.get_completion_records).isEmpty = true := by
      simp only [List.isEmpty_iff]
      intro hcon
      have hp2 : (sort_by_timestamp h.get_completion_records).Perm h.completion_records :=
        List.perm_insertionSort ts_le _
      rw [hcon] at hp2
      exact he hp2.symm.eq_nil
    rw [if_neg hse, if_pos hp]
    unfold calculate_daily_longest_streak
    rw [if_neg hse]
    have hdates : sort_int_asc ((sort_by_timestamp h.get_completion_records).map (·.timestamp))
        = sort_int_asc (h.completion_records.map (·.timestamp)) := by
      rw [map_sort_by_timestamp]
      exact sort_int_asc_congr (sort_int_asc_perm _)
    rw [hdates]

/-- `calculate_longest_streak` on a non-daily habit, rewritten over the
sorted distinct (year, week) list. -/
theorem calculate_longest_streak_weekly_eq (h : Habit)
    (hp : ¬ h.periodicity = Periodicity.DAILY) :
    calculate_longest_streak h =
      (match weekly_weeks h.completion_records with
        | [] => 0
        | w :: rest => weekly_longest_scan w 1 1 rest) := by
  unfold calculate_longest_streak
  dsimp only
  by_cases he : h.completion_records = []
  · have hse : (sort_by_timestamp h.get_completion_records).isEmpty = true := by
      simp [Habit.get_completion_records, he, sort_by_timestamp, List.insertionSort]
    rw [if_pos hse]
    simp [he, weekly_weeks, sort_pairs, List.insertionSort]
  · have hse : ¬ (sort_by_timestamp h.get_completion_records).isEmpty = true := by
      simp only [List.isEmpty_iff]
      intro hcon
      have hp2 : (sort_by_timestamp h.get_completion_records).Perm h.completion_records :=
        List.perm_insertionSort ts_le _
      rw [hcon] at hp2
      exact he hp2.symm.eq_nil
    rw [if_neg hse, if_neg hp]
    unfold calculate_weekly_longest_streak
    rw [if_neg hse]
    have hweeks : weekly_weeks (sort_by_timestamp h.get_completion_records)
        = weekly_weeks h.completion_records :=
      weekly_weeks_congr (List.perm_insertionSort ts_le _)
    rw [show sort_pairs (((sort_by_timestamp h.get_completion_records).map
          (fun c => isocalendar c.timestamp)).dedup)
        = weekly_weeks (sort_by_timestamp h.get_completion_records) from rfl, hweeks]

/-! ## Claim C9 -/

/-- C9: permuting a habit's stored completion list changes neither
`calculate_current_streak` (at any explicit as-of date) nor
`calculate_longest_streak`: both calculators sort the completions before
scanning, so storage order is immaterial. -/
theorem c9_streaks_invariant_under_permutation (h : Habit) (l' : List Completion)
    (hperm : h.completion_records.Perm l') :
    (∀ d, calculate_current_streak { h with completion_records := l' } d =
        calculate_current_streak h d) ∧
      calculate_longest_streak { h with completion_records := l' } =
        calculate_longest_streak h := by
  have hmap : (l'.map (·.timestamp)).Perm (h.completion_records.map (·.timestamp)) :=
    hperm.symm.map _
  have hnil : (l' = []) ↔ (h.completion_records = []) :=
    ⟨fun e => (hperm.trans (e ▸ List.Perm.refl _)).eq_nil,
      fun e => ((e ▸ hperm : ([] : List Completion).Perm l').symm).eq_nil⟩
  constructor
  · intro d
    rw [calculate_current_streak_eq_ts, calculate_current_streak_eq_ts]
    by_cases he : h.completion_records = []
    · simp [he, hnil.mpr he]
    · have he' : ¬ l' = [] := fun e => he (hnil.mp e)
      simp only [he, he', if_false]
      rw [sort_int_desc_congr hmap]
  · by_cases hp : h.periodicity = Periodicity.DAILY
    · rw [calculate_longest_streak_daily_eq _ hp,
        calculate_longest_streak_daily_eq { h with completion_records := l' } hp]
      dsimp only
      rw [sort_int_asc_congr hmap]
    · rw [calculate_longest_streak_weekly_eq _ hp,
        calculate_longest_streak_weekly_eq { h with completion_records := l' } hp]
      dsimp only
      rw [weekly_weeks_congr hperm.symm]

/-- Daily habit with completions on 2024-01-02 and 2024-01-01 (stored newest
first), for the C9 witness. -/
def c9_habit : Habit :=
  ⟨5, "read", Periodicity.DAILY, 738521, true,
    [{ timestamp := 738887 }, { timestamp := 738886 }]⟩

/-- Witness for C9: reversing the stored order of the two completions changes
neither calculator's result. -/
theorem c9_witness :
    (∀ d, calculate_current_streak
          { c9_habit with
            completion_records := [{ timestamp := 738886 }, { timestamp := 738887 }] } d =
        calculate_current_streak c9_habit d) ∧
      calculate_longest_streak
          { c9_habit with
            completion_records := [{ timestamp := 738886 }, { timestamp := 738887 }] } =
        calculate_longest_streak c9_habit :=
  c9_streaks_invariant_under_permutation c9_habit
    [{ timestamp := 738886 }, { timestamp := 738887 }] (by decide)

/-! ## Claim C5 -/

/-- Any date whose ISO calendar is week 52 of 2023 is at most 2023-12-31
(ordinal 738885).  The proof walks the branches of `isocalendar`: every
branch able to output `(2023, 52)` pins the ISO year and forces
`(t - isoweek1monday 2023) / 7 = 51`, regardless of what `ord_to_year`
returned. -/
theorem le_of_isocalendar_2023_52 (t : Int) (h : isocalendar t = (2023, 52)) :
    t ≤ 738885 := by
  have hm : isoweek1monday 2023 = 738522 := by decide
  unfold isocalendar at h
  dsimp only at h
  split_ifs at h with h1 h2 h3 <;> rw [Prod.mk.injEq] at h <;> obtain ⟨hy, hw⟩ := h
  · rw [show ord_to_year t - 1 = 2023 by omega, hm] at hw
    omega
  · omega
  · rw [hy, hm] at hw
    omega
  · rw [hy, hm] at hw
    omega

/-- Any date whose ISO calendar is week 1 of 2024 is at least 2024-01-01
(ordinal 738886), by the same branch analysis. -/
theorem ge_of_isocalendar_2024_1 (t : Int) (h : isocalendar t = (2024, 1)) :
    738886 ≤ t := by
  have hm : isoweek1monday 2024 = 738886 := by decide
  unfold isocalendar at h
  dsimp only at h
  split_ifs at h with h1 h2 h3 <;> rw [Prod.mk.injEq] at h <;> obtain ⟨hy, hw⟩ := h
  · rw [show ord_to_year t - 1 = 2024 by omega, hm] at hw
    omega
  · rw [show ord_to_year t + 1 = 2024 by omega, hm] at h3
    exact h3
  · rw [hy, hm] at hw
    omega
  · rw [hy, hm] at hw
    omega

/-- C5: a weekly habit holding exactly one completion in ISO week 52 of 2023
and one in ISO week 1 of 2024 (in either storage order) has current streak 2
at any as-of date inside ISO week 1 of 2024: the week cursor decrement rolls
week 1 of 2024 back to week 52 of 2023, so the two completions form one
consecutive run. -/
theorem c5_weekly_year_boundary (h : Habit) (a b : Completion) (asof : Int)
    (hp : h.periodicity = Periodicity.WEEKLY)
    (hrec : h.completion_records = [a, b] ∨ h.completion_records = [b, a])
    (ha : isocalendar a.timestamp = (2023, 52))
    (hb : isocalendar b.timestamp = (2024, 1))
    (hasof : isocalendar asof = (2024, 1)) :
    calculate_current_streak h asof = 2 := by
  have hab : a.timestamp < b.timestamp := by
    have h1 := le_of_isocalendar_2023_52 a.timestamp ha
    have h2 := ge_of_isocalendar_2024_1 b.timestamp hb
    omega
  have hng : ¬ ts_ge a b := by unfold ts_ge; omega
  have hg : ts_ge b a := by unfold ts_ge; omega
  have hins1 : List.orderedInsert ts_ge a [b] = [b, a] := by
    show (if ts_ge a b then a :: [b] else b :: List.orderedInsert ts_ge a []) = [b, a]
    rw [if_neg hng]
    rfl
  have hins2 : List.orderedInsert ts_ge b [a] = [b, a] := by
    show (if ts_ge b a then b :: [a] else a :: List.orderedInsert ts_ge b []) = [b, a]
    rw [if_pos hg]
  have hsorted : sort_by_timestamp_desc h.completion_records = [b, a] := by
    rcases hrec with hr | hr <;> rw [hr]
    · show List.orderedInsert ts_ge a (List.orderedInsert ts_ge b []) = [b, a]
      rw [show List.orderedInsert ts_ge b [] = [b] from rfl, hins1]
    · show List.orderedInsert ts_ge b (List.orderedInsert ts_ge a []) = [b, a]
      rw [show List.orderedInsert ts_ge a [] = [a] from rfl, hins2]
  have hne : ¬ h.get_completion_records.isEmpty = true := by
    rcases hrec with hr | hr <;> simp [Habit.get_completion_records, hr]
  have hpne : ¬ h.periodicity = Periodicity.DAILY := by
    rw [hp]; decide
  unfold calculate_current_streak
  dsimp only
  rw [if_neg hne, if_neg hpne,
    show sort_by_timestamp_desc h.get_completion_records = [b, a] from hsorted, hasof]
  simp [weekly_streak_loop, hb, ha]

/-- Weekly habit with completions on 2023-12-25 (ISO week 52 of 2023) and
2024-01-01 (ISO week 1 of 2024), for the C5 witness. -/
def c5_habit : Habit :=
  ⟨6, "plan week", Periodicity.WEEKLY, 738521, true,
    [{ timestamp := 738879 }, { timestamp := 738886 }]⟩

/-- Witness for C5, evaluated as of 2024-01-03 (inside ISO week 1 of 2024). -/
theorem c5_witness : calculate_current_streak c5_habit 738888 = 2 :=
  c5_weekly_year_boundary c5_habit { timestamp := 738879 } { timestamp := 738886 } 738888
    rfl (Or.inl rfl) (by decide) (by decide) (by decide)

/-! ## Claim C7 -/

/-- Python's `max(..., key=...)` scan: the result is the running best when no
later element strictly exceeds it, and otherwise the first element achieving
the maximum. -/
theorem max_by_streak_spec (rest : List StreakEntry) (best : StreakEntry) :
    (max_by_streak best rest = best ∧
        ∀ e ∈ rest, e.streak_length ≤ best.streak_length) ∨
      ∃ i, ∃ hi : i < rest.length,
        max_by_streak best rest = rest.get ⟨i, hi⟩ ∧
          best.streak_length < (rest.get ⟨i, hi⟩).streak_length ∧
          (∀ e ∈ rest, e.streak_length ≤ (rest.get ⟨i, hi⟩).streak_length) ∧
          ∀ j, ∀ hj : j < rest.length, j < i →
            (rest.get ⟨j, hj⟩).streak_length < (rest.get ⟨i, hi⟩).streak_length := by
  induction rest generalizing best with
  | nil => exact Or.inl ⟨rfl, by simp⟩
  | cons e rest ih =>
    by_cases he : e.streak_length > best.streak_length
    · have hstep : max_by_streak best (e :: rest) = max_by_streak e rest := by
        simp [max_by_streak, he]
      rcases ih e with ⟨h1, h2⟩ | ⟨i, hi, h1, h2, h3, h4⟩
      · refine Or.inr ⟨0, by simp, ?_, ?_, ?_, ?_⟩
        · rw [hstep, h1]; rfl
        · simpa using he
        · intro x hx
          rcases List.mem_cons.mp hx with rfl | hx'
          · exact le_refl _
          · exact h2 x hx'
        · intro j hj hj0
          omega
      · refine Or.inr ⟨i + 1, by simpa using Nat.succ_lt_succ hi, ?_, ?_, ?_, ?_⟩
        · rw [hstep, h1]; rfl
        · exact lt_trans he h2
        · intro x hx
          rcases List.mem_cons.mp hx with rfl | hx'
          · exact le_of_lt h2
          · exact h3 x hx'
        · intro j hj hjlt
          match j with
          | 0 => exact h2
          | k + 1 => exact h4 k (by simpa using hj) (by omega)
    · have hstep : max_by_streak best (e :: rest) = max_by_streak best rest := by
        simp [max_by_streak, he]
      have hle : e.streak_length ≤ best.streak_length := by omega
      rcases ih best with ⟨h1, h2⟩ | ⟨i, hi, h1, h2, h3, h4⟩
      · refine Or.inl ⟨hstep.trans h1, ?_⟩
        intro x hx
        rcases List.mem_cons.mp hx with rfl | hx'
        · exact hle
        · exact h2 x hx'
      · refine Or.inr ⟨i + 1, by simpa using Nat.succ_lt_succ hi, ?_, ?_, ?_, ?_⟩
        · rw [hstep, h1]; rfl
        · exact h2
        · intro x hx
          rcases List.mem_cons.mp hx with rfl | hx'
          · exact le_trans hle (le_of_lt h2)
          · exact h3 x hx'
        · intro j hj hjlt
          match j with
          | 0 => exact lt_of_le_of_lt hle h2
          | k + 1 => exact h4 k (by simpa using hj) (by omega)

/-- C7: on a non-empty habit list, `get_overall_longest_streak` reports the
name, longest streak, periodicity value and id of a habit whose longest
streak is maximal, and on ties the one appearing first in the input list. -/
theorem c7_overall_longest_first_max (habits : List Habit) (hne : habits ≠ []) :
    ∃ i, ∃ hi : i < habits.length,
      get_overall_longest_streak habits =
        ⟨some (habits.get ⟨i, hi⟩).name,
          calculate_longest_streak (habits.get ⟨i, hi⟩),
          some (habits.get ⟨i, hi⟩).periodicity.value,
          some (habits.get ⟨i, hi⟩).habit_id⟩ ∧
        (∀ j, ∀ hj : j < habits.length,
          calculate_longest_streak (habits.get ⟨j, hj⟩) ≤
            calculate_longest_streak (habits.get ⟨i, hi⟩)) ∧
        ∀ j, ∀ hj : j < habits.length, j < i →
          calculate_longest_streak (habits.get ⟨j, hj⟩) <
            calculate_longest_streak (habits.get ⟨i, hi⟩) := by
  match habits, hne with
  | h :: hs, _ =>
    have hres : get_overall_longest_streak (h :: hs) =
        ⟨some (max_by_streak (StreakEntry.mk h (calculate_longest_streak h))
            (hs.map (fun hb => StreakEntry.mk hb (calculate_longest_streak hb)))).habit.name,
          (max_by_streak (StreakEntry.mk h (calculate_longest_streak h))
            (hs.map (fun hb => StreakEntry.mk hb (calculate_longest_streak hb)))).streak_length,
          some (max_by_streak (StreakEntry.mk h (calculate_longest_streak h))
            (hs.map (fun hb => StreakEntry.mk hb (calculate_longest_streak hb)))).habit.periodicity.value,
          some (max_by_streak (StreakEntry.mk h (calculate_longest_streak h))
            (hs.map (fun hb => StreakEntry.mk hb (calculate_longest_streak hb)))).habit.habit_id⟩ :=
      rfl
    have hget : ∀ (k : Nat) (hk : k < hs.length),
        (hs.map (fun hb => StreakEntry.mk hb (calculate_longest_streak hb))).get
            ⟨k, by simpa using hk⟩ =
          StreakEntry.mk (hs.get ⟨k, hk⟩) (calculate_longest_streak (hs.get ⟨k, hk⟩)) := by
      intro k hk
      simp [List.get_eq_getElem, List.getElem_map]
    rcases max_by_streak_spec
        (hs.map (fun hb => StreakEntry.mk hb (calculate_longest_streak hb)))
        (StreakEntry.mk h (calculate_longest_streak h)) with
      ⟨h1, h2⟩ | ⟨i, hi, h1, h2, h3, h4⟩
    · refine ⟨0, by simp, ?_, ?_, ?_⟩
      · rw [hres, h1]; rfl
      · intro j hj
        match j with
        | 0 => exact le_refl _
        | k + 1 =>
          have hk : k < hs.length := by simpa using hj
          have := h2 _ (List.mem_map_of_mem _ (hs.get_mem k hk))
          simpa using this
      · intro j hj hj0
        omega
    · have hi' : i < hs.length := by simpa using hi
      refine ⟨i + 1, by simpa using Nat.succ_lt_succ hi', ?_, ?_, ?_⟩
      · rw [hres, h1, hget i hi']; rfl
      · intro j hj
        match j with
        | 0 =>
          have := le_of_lt h2
          rw [hget i hi'] at this
          simpa using this
        | k + 1 =>
          have hk : k < hs.length := by simpa using hj
          have := h3 _ (List.mem_map_of_mem _ (hs.get_mem k hk))
          rw [hget i hi'] at this
          simpa using this
      · intro j hj hjlt
        match j with
        | 0 =>
          have := h2
          rw [hget i hi'] at this
          simpa using this
        | k + 1 =>
          have hk : k < hs.length := by simpa using hj
          have := h4 k (by simpa using hk) (by omega)
          rw [hget i hi', hget k hk] at this
          simpa using this

/-- Habit "A" with one completion (longest streak 1), for the C7 witness. -/
def c7_habit_a : Habit :=
  ⟨10, "A", Periodicity.DAILY, 738521, true, [{ timestamp := 738886 }]⟩

/-- Habit "B" with one completion (longest streak 1), for the C7 witness. -/
def c7_habit_b : Habit :=
  ⟨11, "B", Periodicity.DAILY, 738521, true, [{ timestamp := 738900 }]⟩

/-- Witness for C7 on a two-habit tie: both habits have longest streak 1 and
the function reports the first one, habit "A". -/
theorem c7_witness :
    get_overall_longest_streak [c7_habit_a, c7_habit_b] =
        ⟨some "A", 1, some "daily", some 10⟩ ∧
      ∃ i, ∃ hi : i < ([c7_habit_a, c7_habit_b] : List Habit).length,
        get_overall_longest_streak [c7_habit_a, c7_habit_b] =
          ⟨some (([c7_habit_a, c7_habit_b] : List Habit).get ⟨i, hi⟩).name,
            calculate_longest_streak (([c7_habit_a, c7_habit_b] : List Habit).get ⟨i, hi⟩),
            some (([c7_habit_a, c7_habit_b] : List Habit).get ⟨i, hi⟩).periodicity.value,
            some (([c7_habit_a, c7_habit_b] : List Habit).get ⟨i, hi⟩).habit_id⟩ ∧
          (∀ j, ∀ hj : j < ([c7_habit_a, c7_habit_b] : List Habit).length,
            calculate_longest_streak (([c7_habit_a, c7_habit_b] : List Habit).get ⟨j, hj⟩) ≤
              calculate_longest_streak (([c7_habit_a, c7_habit_b] : List Habit).get ⟨i, hi⟩)) ∧
          ∀ j, ∀ hj : j < ([c7_habit_a, c7_habit_b] : List Habit).length, j < i →
            calculate_longest_streak (([c7_habit_a, c7_habit_b] : List Habit).get ⟨j, hj⟩) <
              calculate_longest_streak (([c7_habit_a, c7_habit_b] : List Habit).get ⟨i, hi⟩) :=
  ⟨by decide, c7_overall_longest_first_max [c7_habit_a, c7_habit_b] (by decide)⟩

/-! ## Claim C6: the daily longest-streak scan computes the maximal
consecutive-day run

The proof proceeds in stages: the scan ignores adjacent duplicates
(`daily_longest_scan_dd`), on a strictly increasing list it computes the
maximum of the consecutive-block lengths (`daily_scan_eq_blocks`), and that
maximum is exactly the length of the longest run of consecutive days present
in the list (`go_blocks_exists`, `go_blocks_bound`). -/

/-- `is_run dates d k`: each of the `k` consecutive days `d, d+1, …, d+k-1`
has at least one completion (i.e. appears in the date list). -/
def is_run (dates : List Int) (d : Int) (k : Nat) : Prop :=
  ∀ j : Nat, j < k → (d + (j : Int)) ∈ dates

/-- Remove elements equal to the running previous element (adjacent
duplicates in a sorted list). -/
def dd_from (prev : Int) : List Int → List Int
  | [] => []
  | b :: rest => if b = prev then dd_from prev rest else b :: dd_from b rest

theorem daily_longest_scan_dd (l : List Int) (prev : Int) (current longest : Nat) :
    daily_longest_scan prev current longest l =
      daily_longest_scan prev current longest (dd_from prev l) := by
  induction l generalizing prev current longest with
  | nil => rfl
  | cons b rest ih =>
    by_cases hb : b = prev
    · subst hb
      rw [show dd_from b (b :: rest) = dd_from b rest by simp [dd_from]]
      rw [show daily_longest_scan b current longest (b :: rest)
          = daily_longest_scan b current longest rest by simp [daily_longest_scan]]
      exact ih b current longest
    · rw [show dd_from prev (b :: rest) = b :: dd_from b rest by simp [dd_from, hb]]
      by_cases hd : b - prev = 1
      · rw [show daily_longest_scan prev current longest (b :: rest)
            = daily_longest_scan b (current + 1) (max longest (current + 1)) rest by
              simp [daily_longest_scan, hd]]
        rw [show daily_longest_scan prev current longest (b :: dd_from b rest)
            = daily_longest_scan b (current + 1) (max longest (current + 1)) (dd_from b rest) by
              simp [daily_longest_scan, hd]]
        exact ih b _ _
      · rw [show daily_longest_scan prev current longest (b :: rest)
            = daily_longest_scan b 1 longest rest by simp [daily_longest_scan, hd, hb]]
        rw [show daily_longest_scan prev current longest (b :: dd_from b rest)
            = daily_longest_scan b 1 longest (dd_from b rest) by
              simp [daily_longest_scan, hd, hb]]
        exact ih b _ _

theorem mem_dd_from (l : List Int) (prev x : Int) :
    x ∈ prev :: dd_from prev l ↔ x ∈ prev :: l := by
  induction l generalizing prev with
  | nil => exact Iff.rfl
  | cons b rest ih =>
    by_cases hb : b = prev
    · subst hb
      rw [show dd_from b (b :: rest) = dd_from b rest by simp [dd_from]]
      rw [ih b]
      simp only [List.mem_cons]
      constructor <;> intro hx <;> tauto
    · rw [show dd_from prev (b :: rest) = b :: dd_from b rest by simp [dd_from, hb]]
      have hib := ih b
      simp only [List.mem_cons] at hib ⊢
      constructor <;> intro hx
      · rcases hx with hx | hx
        · tauto
        · have := hib.mp (by tauto)
          tauto
      · rcases hx with hx | hx
        · tauto
        · have := hib.mpr (by tauto)
          tauto

theorem chain_dd_from (l : List Int) (prev : Int)
    (hs : List.Sorted (· ≤ ·) (prev :: l)) :
    List.Chain' (· < ·) (prev :: dd_from prev l) := by
  induction l generalizing prev with
  | nil => simp [dd_from]
  | cons b rest ih =>
    obtain ⟨h1, h2⟩ := List.sorted_cons.mp hs
    have hpb : prev ≤ b := h1 b (by simp)
    by_cases hb : b = prev
    · subst hb
      rw [show dd_from b (b :: rest) = dd_from b rest by simp [dd_from]]
      apply ih b
      exact List.sorted_cons.mpr ⟨fun y hy => h1 y (by simp [hy]), (List.sorted_cons.mp h2).2⟩
    · have hlt : prev < b := lt_of_le_of_ne hpb (Ne.symm hb)
      rw [show dd_from prev (b :: rest) = b :: dd_from b rest by simp [dd_from, hb]]
      rw [List.chain'_cons]
      exact ⟨hlt, ih b h2⟩

/-- Lengths of the maximal blocks of consecutive integers in the remaining
list, given a current partial block of length `current` ending at `prev`. -/
def go_blocks (prev : Int) (current : Nat) : List Int → List Nat
  | [] => [current]
  | b :: rest =>
    if b = prev + 1 then go_blocks b (current + 1) rest
    else current :: go_blocks b 1 rest

/-- Maximum of a list of naturals. -/
def max_list (l : List Nat) : Nat := l.foldr max 0

theorem le_max_list_go (l : List Int) (prev : Int) (current : Nat) :
    current ≤ max_list (go_blocks prev current l) := by
  induction l generalizing prev current with
  | nil => simp [go_blocks, max_list]
  | cons b rest ih =>
    by_cases hb : b = prev + 1
    · rw [show go_blocks prev current (b :: rest) = go_blocks b (current + 1) rest by
          simp [go_blocks, hb]]
      exact le_trans (Nat.le_succ _) (ih b (current + 1))
    · rw [show go_blocks prev current (b :: rest) = current :: go_blocks b 1 rest by
          simp [go_blocks, hb]]
      exact le_max_left _ _

theorem daily_scan_eq_blocks (l : List Int) (prev : Int) (current longest : Nat)
    (h1 : 1 ≤ current) (h2 : current ≤ longest)
    (hchain : List.Chain' (· < ·) (prev :: l)) :
    daily_longest_scan prev current longest l =
      max longest (max_list (go_blocks prev current l)) := by
  induction l generalizing prev current longest with
  | nil =>
    rw [show max_list (go_blocks prev current []) = current by simp [go_blocks, max_list]]
    rw [max_eq_left h2]
    rfl
  | cons b rest ih =>
    have hlt : prev < b := (List.chain'_cons.mp hchain).1
    have hchain' : List.Chain' (· < ·) (b :: rest) := (List.chain'_cons.mp hchain).2
    by_cases hb : b = prev + 1
    · have hd : b - prev = 1 := by omega
      rw [show daily_longest_scan prev current longest (b :: rest)
          = daily_longest_scan b (current + 1) (max longest (current + 1)) rest by
            simp [daily_longest_scan, hd]]
      rw [show go_blocks prev current (b :: rest) = go_blocks b (current + 1) rest by
            simp [go_blocks, hb]]
      rw [ih b (current + 1) (max longest (current + 1)) (by omega) (le_max_right _ _) hchain']
      have hX := le_max_list_go rest b (current + 1)
      rw [max_assoc]
      congr 1
      exact max_eq_right hX
    · have hd : ¬ b - prev = 1 := by omega
      have hne : b ≠ prev := by omega
      rw [show daily_longest_scan prev current longest (b :: rest)
          = daily_longest_scan b 1 longest rest by simp [daily_longest_scan, hd, hne]]
      rw [show go_blocks prev current (b :: rest) = current :: go_blocks b 1 rest by
            simp [go_blocks, hb]]
      rw [ih b 1 longest (le_refl 1) (le_trans h1 h2) hchain']
      rw [show max_list (current :: go_blocks b 1 rest)
          = max current (max_list (go_blocks b 1 rest)) from rfl]
      rw [← max_assoc, max_eq_left h2]

theorem go_blocks_exists (l : List Int) (prev : Int) (current : Nat) (S : Int → Prop)
    (hchain : List.Chain' (· < ·) (prev :: l))
    (hmem : ∀ x ∈ l, S x)
    (hphantom : ∀ j : Nat, j < current → S (prev - (j : Int))) :
    ∃ d : Int, ∀ j : Nat, j < max_list (go_blocks prev current l) → S (d + (j : Int)) := by
  induction l generalizing prev current with
  | nil =>
    refine ⟨prev - (current : Int) + 1, ?_⟩
    intro j hj
    rw [show max_list (go_blocks prev current []) = current by simp [go_blocks, max_list]] at hj
    rw [show prev - (current : Int) + 1 + (j : Int) = prev - ((current - 1 - j : Nat) : Int) by
      omega]
    exact hphantom _ (by omega)
  | cons b rest ih =>
    have hchain' : List.Chain' (· < ·) (b :: rest) := (List.chain'_cons.mp hchain).2
    by_cases hb : b = prev + 1
    · rw [show go_blocks prev current (b :: rest) = go_blocks b (current + 1) rest by
          simp [go_blocks, hb]]
      apply ih b (current + 1) hchain'
      · intro x hx
        exact hmem x (by simp [hx])
      · intro j hj
        match j with
        | 0 =>
          simpa using hmem b (by simp)
        | k + 1 =>
          rw [show b - ((k + 1 : Nat) : Int) = prev - (k : Int) by omega]
          exact hphantom k (by omega)
    · rw [show go_blocks prev current (b :: rest) = current :: go_blocks b 1 rest by
          simp [go_blocks, hb]]
      rw [show max_list (current :: go_blocks b 1 rest)
          = max current (max_list (go_blocks b 1 rest)) from rfl]
      rcases Nat.le_total current (max_list (go_blocks b 1 rest)) with hc | hc
      · rw [max_eq_right hc]
        apply ih b 1 hchain'
        · intro x hx
          exact hmem x (by simp [hx])
        · intro j hj
          match j with
          | 0 => simpa using hmem b (by simp)
      · rw [max_eq_left hc]
        refine ⟨prev - (current : Int) + 1, ?_⟩
        intro j hj
        rw [show prev - (current : Int) + 1 + (j : Int)
            = prev - ((current - 1 - j : Nat) : Int) by omega]
        exact hphantom _ (by omega)

theorem go_blocks_bound (l : List Int) (prev : Int) (current : Nat)
    (hcur : 1 ≤ current)
    (hchain : List.Chain' (· < ·) (prev :: l)) :
    ∀ (d : Int) (k : Nat),
      (∀ j : Nat, j < k → ((d + (j : Int)) ∈ prev :: l ∨
          (prev - (current : Int) < d + (j : Int) ∧ d + (j : Int) ≤ prev))) →
      k ≤ max_list (go_blocks prev current l) := by
  induction l generalizing prev current with
  | nil =>
    intro d k hrun
    match k with
    | 0 => exact Nat.zero_le _
    | k + 1 =>
      have h0 := hrun 0 (by omega)
      have hk := hrun k (by omega)
      have hb0 : prev - (current : Int) < d ∧ d ≤ prev := by
        rcases h0 with hmem0 | hiv0
        · simp only [List.mem_singleton] at hmem0
          omega
        · omega
      have hbk : d + (k : Int) ≤ prev := by
        rcases hk with hmemk | hivk
        · simp only [List.mem_singleton] at hmemk
          omega
        · omega
      have hkc : k + 1 ≤ current := by omega
      calc k + 1 ≤ current := hkc
        _ ≤ max_list (go_blocks prev current []) := by simp [go_blocks, max_list]
  | cons b rest ih =>
    intro d k hrun
    have hlt : prev < b := (List.chain'_cons.mp hchain).1
    have hchain' : List.Chain' (· < ·) (b :: rest) := (List.chain'_cons.mp hchain).2
    have hrest_gt : ∀ x ∈ rest, b < x := by
      have hpw := List.chain'_iff_pairwise.mp hchain'
      exact fun x hx => (List.pairwise_cons.mp hpw).1 x hx
    by_cases hb : b = prev + 1
    · rw [show go_blocks prev current (b :: rest) = go_blocks b (current + 1) rest by
          simp [go_blocks, hb]]
      apply ih b (current + 1) (by omega) hchain' d k
      intro j hj
      rcases hrun j hj with hmemj | hivj
      · rcases List.mem_cons.mp hmemj with hp | hbr
        · right
          omega
        · left
          exact hbr
      · right
        omega
    · have hpb : prev + 1 < b := by omega
      rw [show go_blocks prev current (b :: rest) = current :: go_blocks b 1 rest by
          simp [go_blocks, hb]]
      rw [show max_list (current :: go_blocks b 1 rest)
          = max current (max_list (go_blocks b 1 rest)) from rfl]
      match k with
      | 0 => exact Nat.zero_le _
      | k + 1 =>
        by_cases hlast : d + (k : Int) ≤ prev
        · have h0 := hrun 0 (by omega)
          have hlow : prev - (current : Int) < d := by
            rcases h0 with hmem0 | hiv0
            · rcases List.mem_cons.mp hmem0 with hp | hbr
              · omega
              · rcases List.mem_cons.mp hbr with hq | hr
                · omega
                · have := hrest_gt _ hr
                  omega
            · omega
          have : k + 1 ≤ current := by omega
          exact le_trans this (le_max_left _ _)
        · by_cases hd : b ≤ d
          · have hbound := ih b 1 (le_refl 1) hchain' d (k + 1) ?side
            case side =>
              intro j hj
              rcases hrun j hj with hmemj | hivj
              · rcases List.mem_cons.mp hmemj with hp | hbr
                · exfalso
                  omega
                · left
                  exact hbr
              · exfalso
                omega
            exact le_trans hbound (le_max_right _ _)
          · exfalso
            have hk := hrun k (by omega)
            have hdk : b ≤ d + (k : Int) := by
              rcases hk with hmemk | hivk
              · rcases List.mem_cons.mp hmemk with hp | hbr
                · omega
                · rcases List.mem_cons.mp hbr with hq | hr
                  · omega
                  · have := hrest_gt _ hr
                    omega
              · omega
            have hj0lt : (b - 1 - d).toNat < k + 1 := by omega
            have hmid := hrun (b - 1 - d).toNat hj0lt
            rw [show d + (((b - 1 - d).toNat : Nat) : Int) = b - 1 by omega] at hmid
            rcases hmid with hmemm | hivm
            · rcases List.mem_cons.mp hmemm with hp | hbr
              · omega
              · rcases List.mem_cons.mp hbr with hq | hr
                · omega
                · have := hrest_gt _ hr
                  omega
            · omega

/-- C6: for every daily habit, `calculate_longest_streak` returns exactly the
maximum length of a run of consecutive distinct calendar days each containing
at least one completion: a run of the returned length exists among the
completion dates, and every run is bounded by it.  In the scan this is
because a gap of exactly one day extends the current run, a greater gap
resets it, and same-day duplicates neither break nor extend it. -/
theorem c6_daily_longest_streak_max_run (h : Habit)
    (hp : h.periodicity = Periodicity.DAILY) :
    (∃ d : Int, is_run (h.completion_records.map (·.timestamp)) d
        (calculate_longest_streak h)) ∧
      ∀ (d : Int) (k : Nat),
        is_run (h.completion_records.map (·.timestamp)) d k →
          k ≤ calculate_longest_streak h := by
  rw [calculate_longest_streak_daily_eq h hp]
  rcases hD : sort_int_asc (h.completion_records.map (·.timestamp)) with _ | ⟨d0, Drest⟩
  · have hSnil : h.completion_records.map (·.timestamp) = [] := by
      have hperm := sort_int_asc_perm (h.completion_records.map (·.timestamp))
      rw [hD] at hperm
      exact hperm.symm.eq_nil
    rw [hD]
    show (∃ d : Int, is_run (h.completion_records.map (·.timestamp)) d 0) ∧
      ∀ (d : Int) (k : Nat),
        is_run (h.completion_records.map (·.timestamp)) d k → k ≤ 0
    constructor
    · exact ⟨0, fun j hj => absurd hj (by omega)⟩
    · intro d k hrun
      match k with
      | 0 => exact Nat.le_refl 0
      | k + 1 =>
        have hmem0 := hrun 0 (by omega)
        rw [hSnil] at hmem0
        simp at hmem0
  · rw [hD]
    show (∃ d : Int, is_run (h.completion_records.map (·.timestamp)) d
        (daily_longest_scan d0 1 1 Drest)) ∧
      ∀ (d : Int) (k : Nat),
        is_run (h.completion_records.map (·.timestamp)) d k →
          k ≤ daily_longest_scan d0 1 1 Drest
    have hmemD : ∀ x : Int, x ∈ d0 :: Drest ↔ x ∈ h.completion_records.map (·.timestamp) := by
      intro x
      rw [← hD]
      exact (sort_int_asc_perm _).mem_iff
    have hsortD : List.Sorted (· ≤ ·) (d0 :: Drest) := by
      rw [← hD]
      exact sort_int_asc_sorted _
    have hchain := chain_dd_from Drest d0 hsortD
    have hval : daily_longest_scan d0 1 1 Drest
        = max_list (go_blocks d0 1 (dd_from d0 Drest)) := by
      rw [daily_longest_scan_dd,
        daily_scan_eq_blocks (dd_from d0 Drest) d0 1 1 (le_refl 1) (le_refl 1) hchain]
      exact max_eq_right (le_max_list_go _ _ _)
    constructor
    · have hm : ∀ x ∈ dd_from d0 Drest, x ∈ h.completion_records.map (·.timestamp) := by
        intro x hx
        have hx' : x ∈ d0 :: dd_from d0 Drest := by simp [hx]
        exact (hmemD x).mp ((mem_dd_from Drest d0 x).mp hx')
      have hph : ∀ j : Nat, j < 1 →
          (d0 - (j : Int)) ∈ h.completion_records.map (·.timestamp) := by
        intro j hj
        have hj0 : j = 0 := by omega
        subst hj0
        have hd0 : d0 ∈ d0 :: Drest := by simp
        simpa using (hmemD d0).mp hd0
      obtain ⟨d, hd⟩ := go_blocks_exists (dd_from d0 Drest) d0 1
        (fun x => x ∈ h.completion_records.map (·.timestamp)) hchain hm hph
      refine ⟨d, ?_⟩
      rw [show (daily_longest_scan d0 1 1 Drest : Nat)
          = max_list (go_blocks d0 1 (dd_from d0 Drest)) from hval]
      exact hd
    · intro d k hrun
      rw [show (daily_longest_scan d0 1 1 Drest : Nat)
          = max_list (go_blocks d0 1 (dd_from d0 Drest)) from hval]
      apply go_blocks_bound (dd_from d0 Drest) d0 1 (le_refl 1) hchain d k
      intro j hj
      left
      exact (mem_dd_from Drest d0 _).mpr ((hmemD _).mpr (hrun j hj))

/-- Daily habit with completions on 2024-01-01, 01-02, 01-03, 01-05, 01-06
and 01-07 (gap on 01-04), for the C6 witness. -/
def c6_habit : Habit :=
  ⟨12, "journal", Periodicity.DAILY, 738521, true,
    [{ timestamp := 738886 }, { timestamp := 738887 }, { timestamp := 738888 },
      { timestamp := 738890 }, { timestamp := 738891 }, { timestamp := 738892 }]⟩

/-- Witness for C6: the scenario from the claim yields longest streak 3,
which is both achieved by a run and maximal. -/
theorem c6_witness :
    c6_habit.periodicity = Periodicity.DAILY ∧
      calculate_longest_streak c6_habit = 3 ∧
      ((∃ d : Int, is_run (c6_habit.completion_records.map (·.timestamp)) d
          (calculate_longest_streak c6_habit)) ∧
        ∀ (d : Int) (k : Nat),
          is_run (c6_habit.completion_records.map (·.timestamp)) d k →
            k ≤ calculate_longest_streak c6_habit) :=
  ⟨rfl, by decide, c6_daily_longest_streak_max_run c6_habit rfl⟩

end HabitTracker
